import Mathlib

/-!
Verification of the credential-sharing detection engine of mtprotoproxy
(src/analyze_logs.py, class MTProxyLogAnalyzer). The analyzer parses
connection events (timestamp, source ip, credential secret), groups them by
resolved identity, counts concurrent different-IP event pairs inside a
300-second window, computes an average connection interval, a capped 0-100
suspicion score, and a tiered report.

Timestamps are modelled as whole seconds (the log format parsed by the code
has second precision), averages as rationals (Python float division on
integral inputs), and the per-user dictionaries as association lists in
insertion order (Python dict semantics).
-/

namespace MTProxy

/-- A parsed connection event, the part of the `connection_info` record built
in `parse_logs` (analyze_logs.py lines 66-74) that the analysis reads. -/
structure Conn where
  timestamp : Int
  ip : String
deriving DecidableEq

/-- A raw matched log event before identity resolution: the regex capture
groups `(timestamp_str, ip, secret)` of `parse_logs` (line 56). -/
structure RawEvent where
  timestamp : Int
  ip : String
  secret : String
deriving DecidableEq

/-- Identity resolution, line 64:
`username = secret_to_user.get(secret, f"unknown_{secret[:8]}")`. -/
def resolveUsername (secretToUser : List (String × String)) (secret : String) : String :=
  match secretToUser.lookup secret with
  | some u => u
  | none => "unknown_" ++ secret.take 8

/-- The `Conn` record appended for a matched event (lines 66-74). -/
def connOf (e : RawEvent) : Conn :=
  { timestamp := e.timestamp, ip := e.ip }

/-- Appending to `self.user_connections[username]` (a `defaultdict(list)`,
line 74), modelled on an association list kept in insertion order. -/
def insertConn (m : List (String × List Conn)) (name : String) (c : Conn) :
    List (String × List Conn) :=
  match m with
  | [] => [(name, [c])]
  | (k, v) :: rest =>
      if k = name then (k, v ++ [c]) :: rest else (k, v) :: insertConn rest name c

/-- Reading `self.user_connections[name]`; absent keys give the empty list
(defaultdict default). -/
def lookupGroup (m : List (String × List Conn)) (name : String) : List Conn :=
  match m with
  | [] => []
  | (k, v) :: rest => if k = name then v else lookupGroup rest name

/-- One iteration of the `parse_logs` loop body for a matched event
(lines 56-74): resolve the username and append the connection record. -/
def parseStep (secretToUser : List (String × String)) (m : List (String × List Conn))
    (e : RawEvent) : List (String × List Conn) :=
  insertConn m (resolveUsername secretToUser e.secret) (connOf e)

/-- The grouping effect of `parse_logs` (lines 49-81) over the stream of
matched events, starting from the empty `user_connections` table. -/
def parseLogs (secretToUser : List (String × String)) (evs : List RawEvent) :
    List (String × List Conn) :=
  evs.foldl (parseStep secretToUser) []

/-- The pair test of the inner loop, line 127:
`time_diff < 300 and conn1['ip'] != conn2['ip']`, with
`time_diff = abs((conn1['timestamp'] - conn2['timestamp']).total_seconds())`. -/
def concurrentPred (c1 c2 : Conn) : Bool :=
  (c1.timestamp - c2.timestamp).natAbs < 300 && c1.ip != c2.ip

/-- The double loop of lines 123-128: for each index i, every later index j
is tested, and `len(simultaneous_ips)` counts the qualifying pairs. -/
def countConcurrentPairs : List Conn → Nat
  | [] => 0
  | c :: rest => (rest.filter (fun d => concurrentPred c d)).length + countConcurrentPairs rest

/-- Python `min` over a nonempty integer list (used at line 146,
`min(connection_times)`); the empty case is never reached by the analyzer. -/
def listMin : List Int → Int
  | [] => 0
  | x :: xs => xs.foldl min x

/-- Python `max` over a nonempty integer list (line 147). -/
def listMax : List Int → Int
  | [] => 0
  | x :: xs => xs.foldl max x

/-- `times[0]`: head of a nonempty list, totalized. -/
def firstOf : List Int → Int
  | [] => 0
  | x :: _ => x

/-- `times[-1]`: last element of a nonempty list, totalized. -/
def lastOf : List Int → Int
  | [] => 0
  | [x] => x
  | _ :: y :: ys => lastOf (y :: ys)

/-- Lines 120 and 130-135: sort the timestamps ascending, take
`total_time = sorted[-1] - sorted[0]`, and return
`total_time / len(connection_times)` when `len > 1` and `total_time > 0`,
else 0. -/
def avgInterval (times : List Int) : ℚ :=
  if 1 < times.length then
    let sortedTimes := List.insertionSort (· ≤ ·) times
    let total : Int := lastOf sortedTimes - firstOf sortedTimes
    if 0 < total then (total : ℚ) / (times.length : ℚ) else 0
  else 0

/-- The running `score` value of `calculate_suspicious_score` just before the
final cap (lines 154-165). -/
def suspiciousScoreBase (unique_ips simultaneous_ips total_connections : Nat) : Nat :=
  let s1 := if 1 < unique_ips then 0 + unique_ips * 10 else 0
  let s2 := s1 + simultaneous_ips * 50
  if 20 < total_connections then s2 + (total_connections - 20) * 2 else s2

/-- `calculate_suspicious_score` (lines 152-167): the accumulated score,
capped at 100 on return. -/
def calculate_suspicious_score (unique_ips simultaneous_ips total_connections : Nat) : Nat :=
  min (suspiciousScoreBase unique_ips simultaneous_ips total_connections) 100

/-- The per-identity record written into `sharing_analysis[username]`
(lines 137-148); the raw-log list field is omitted. -/
structure CorrelationResult where
  total_connections : Nat
  unique_ips : Nat
  ips : List String
  simultaneous_different_ips : Nat
  avg_connection_interval : ℚ
  suspicious_score : Nat
  first_seen : Int
  last_seen : Int
deriving DecidableEq

/-- The body of the per-user loop of `analyze_sharing_behavior`
(lines 115-148), for a user that passed the `len(connections) < 2` guard. -/
def analyzeUser (conns : List Conn) : CorrelationResult :=
  let user_ips := (conns.map (fun c => c.ip)).dedup
  let connection_times := conns.map (fun c => c.timestamp)
  { total_connections := conns.length
    unique_ips := user_ips.length
    ips := user_ips
    simultaneous_different_ips := countConcurrentPairs conns
    avg_connection_interval := avgInterval connection_times
    suspicious_score :=
      calculate_suspicious_score user_ips.length (countConcurrentPairs conns) conns.length
    first_seen := listMin connection_times
    last_seen := listMax connection_times }

/-- `analyze_sharing_behavior` (lines 107-150): iterate the grouped
connections in insertion order, skip identities with fewer than 2 events
(line 112-113), and record the analysis for the rest. -/
def analyzeSharingBehavior (userConns : List (String × List Conn)) :
    List (String × CorrelationResult) :=
  userConns.filterMap (fun uc =>
    if uc.2.length < 2 then none else some (uc.1, analyzeUser uc.2))

/-- The comparison used by the report sort (lines 179-180):
`sorted(..., key=lambda x: x[1]['suspicious_score'], reverse=True)`. -/
def scoreGE (x y : String × CorrelationResult) : Prop :=
  y.2.suspicious_score ≤ x.2.suspicious_score

instance : DecidableRel scoreGE :=
  fun x y => Nat.decLe y.2.suspicious_score x.2.suspicious_score

instance : IsTotal (String × CorrelationResult) scoreGE :=
  ⟨fun x y => Nat.le_total y.2.suspicious_score x.2.suspicious_score⟩

instance : IsTrans (String × CorrelationResult) scoreGE :=
  ⟨fun _ _ _ h1 h2 => Nat.le_trans h2 h1⟩

/-- The report ordering of `print_analysis` (lines 179-180): a stable sort by
suspicious score descending (Python `sorted` is stable, and `reverse=True`
keeps equal-key elements in input order). Insertion sort with the reflexive
descending comparison realises exactly that stable order. -/
def sortByScore (a : List (String × CorrelationResult)) :
    List (String × CorrelationResult) :=
  List.insertionSort scoreGE a

/-- An arbitrary concrete correlation record used for concrete report-order
scenarios. -/
def sampleResult : CorrelationResult :=
  { total_connections := 2
    unique_ips := 2
    ips := ["1.1.1.1", "2.2.2.2"]
    simultaneous_different_ips := 0
    avg_connection_interval := 0
    suspicious_score := 20
    first_seen := 0
    last_seen := 600 }

/-- The risk tiers printed at lines 188-193. -/
inductive RiskTier
  | high
  | medium
  | low
deriving DecidableEq

/-- The `if/elif/else` classification of lines 188-193: score above 30 is
HIGH, above 10 is MEDIUM, otherwise LOW. -/
def tierOf (score : Nat) : RiskTier :=
  if 30 < score then .high else if 10 < score then .medium else .low

/-- Line 211: `sum(1 for data in values if data['suspicious_score'] > 30)`. -/
def highRiskCount (a : List (String × CorrelationResult)) : Nat :=
  a.countP (fun x => decide (30 < x.2.suspicious_score))

/-- Line 212: `sum(1 for data in values if 10 < score <= 30)`. -/
def mediumRiskCount (a : List (String × CorrelationResult)) : Nat :=
  a.countP (fun x => decide (10 < x.2.suspicious_score ∧ x.2.suspicious_score ≤ 30))

/-- Line 218: low-risk users are printed as `total - high - medium`. -/
def lowRiskCount (a : List (String × CorrelationResult)) : Nat :=
  a.length - highRiskCount a - mediumRiskCount a

/-- The claim side of the pairwise count: a 2-element sublist (an unordered
pair of events, each pair taken once in list order) qualifying under the
concurrency test. -/
def pairPred : List Conn → Bool
  | [a, b] => concurrentPred a b
  | _ => false

/-- Number of unordered pairs of events that qualify as concurrent
different-IP usage, stated over all 2-element sublists. -/
def specPairCount (conns : List Conn) : Nat :=
  ((List.sublistsLen 2 conns).filter pairPred).length

/-! ### Shared lemmas about the score function -/

/-- Closed form of the accumulated score of lines 154-165. -/
theorem suspiciousScoreBase_eq (u p t : Nat) :
    suspiciousScoreBase u p t =
      (if 1 < u then u * 10 else 0) + p * 50 + (if 20 < t then (t - 20) * 2 else 0) := by
  simp only [suspiciousScoreBase]
  split_ifs <;> omega

/-- C4: calculate_suspicious_score returns min(base, 100) where base adds
unique_ips*10 when unique_ips exceeds 1, concurrent pairs times 50, and
(total_connections - 20)*2 when total_connections exceeds 20; on the scenario
inputs (1, 0, 25) the score is 10 with tier LOW. -/
theorem score_formula :
    (∀ u p t : Nat, calculate_suspicious_score u p t =
        min ((if 1 < u then u * 10 else 0) + p * 50 +
          (if 20 < t then (t - 20) * 2 else 0)) 100) ∧
    calculate_suspicious_score 1 0 25 = 10 ∧
    tierOf (calculate_suspicious_score 1 0 25) = .low := by
  refine ⟨fun u p t => ?_, by decide, by decide⟩
  simp only [calculate_suspicious_score, suspiciousScoreBase_eq]

/-- C6: the suspicious score always lies in the closed interval [0, 100]. -/
theorem score_bounded (u p t : Nat) :
    0 ≤ calculate_suspicious_score u p t ∧ calculate_suspicious_score u p t ≤ 100 :=
  ⟨Nat.zero_le _, Nat.min_le_right _ _⟩

/-- C7: the suspicious score is monotonically non-decreasing in each of its
three arguments, the other two held fixed. -/
theorem score_monotone (u u' p p' t t' : Nat) :
    (u ≤ u' → calculate_suspicious_score u p t ≤ calculate_suspicious_score u' p t) ∧
    (p ≤ p' → calculate_suspicious_score u p t ≤ calculate_suspicious_score u p' t) ∧
    (t ≤ t' → calculate_suspicious_score u p t ≤ calculate_suspicious_score u p t') := by
  refine ⟨fun h => ?_, fun h => ?_, fun h => ?_⟩ <;>
    simp only [calculate_suspicious_score, suspiciousScoreBase_eq] <;>
    refine min_le_min ?_ le_rfl <;>
    split_ifs <;> omega

/-- Witness for C7 at the concrete inputs (1,0,5) against (2,0,5), (1,1,5)
and (1,0,25). -/
theorem score_monotone_witness :
    calculate_suspicious_score 1 0 5 ≤ calculate_suspicious_score 2 0 5 ∧
    calculate_suspicious_score 1 0 5 ≤ calculate_suspicious_score 1 1 5 ∧
    calculate_suspicious_score 1 0 5 ≤ calculate_suspicious_score 1 0 25 :=
  ⟨(score_monotone 1 2 0 0 5 5).1 (by decide),
   (score_monotone 1 1 0 1 5 5).2.1 (by decide),
   (score_monotone 1 1 0 0 5 25).2.2 (by decide)⟩

/-! ### Risk tiers and summary counts -/

/-- The high and medium counters of lines 211-212 test disjoint score ranges,
so together they never exceed the number of analyzed identities. -/
theorem highMedium_le (a : List (String × CorrelationResult)) :
    highRiskCount a + mediumRiskCount a ≤ a.length := by
  induction a with
  | nil => simp [highRiskCount, mediumRiskCount]
  | cons x xs ih =>
    have hcons1 : highRiskCount (x :: xs) =
        highRiskCount xs + if 30 < x.2.suspicious_score then 1 else 0 := by
      simp only [highRiskCount, List.countP_cons]
      by_cases h : 30 < x.2.suspicious_score <;> simp [h]
    have hcons2 : mediumRiskCount (x :: xs) = mediumRiskCount xs +
        if 10 < x.2.suspicious_score ∧ x.2.suspicious_score ≤ 30 then 1 else 0 := by
      simp only [mediumRiskCount, List.countP_cons]
      by_cases h : 10 < x.2.suspicious_score ∧ x.2.suspicious_score ≤ 30 <;> simp [h]
    rw [hcons1, hcons2, List.length_cons]
    split_ifs with h1 h2 <;> omega

/-- C8: every score is classified into exactly one tier, HIGH iff score above
30, MEDIUM iff score in (10, 30], LOW iff score at most 10, and the three
summary counters of lines 210-218 always sum to the number of analyzed
identities. -/
theorem tier_partition :
    (∀ s : Nat,
      (tierOf s = .high ↔ 30 < s) ∧
      (tierOf s = .medium ↔ 10 < s ∧ s ≤ 30) ∧
      (tierOf s = .low ↔ s ≤ 10)) ∧
    (∀ a : List (String × CorrelationResult),
      highRiskCount a + mediumRiskCount a + lowRiskCount a = a.length) := by
  constructor
  · intro s
    unfold tierOf
    split_ifs with h1 h2 <;> refine ⟨?_, ?_, ?_⟩ <;> simp <;> omega
  · intro a
    have h := highMedium_le a
    unfold lowRiskCount
    omega

/-! ### Pairwise concurrency count -/

/-- The filtered tail pairs of the head event match the 2-element sublists
that start with the head. -/
theorem filter_pairs_head (c : Conn) (rest : List Conn) :
    (((List.sublistsLen 1 rest).map (fun l => c :: l)).filter pairPred).length =
      (rest.filter (fun d => concurrentPred c d)).length := by
  rw [List.sublistsLen_one, List.map_map, List.filter_map, List.length_map]
  have hf : (pairPred ∘ ((fun l => c :: l) ∘ fun a => [a])) =
      fun d => concurrentPred c d := by
    funext d
    rfl
  rw [hf]
  exact ((rest.reverse_perm).filter _).length_eq

/-- The nested loop of lines 123-128 counts exactly the qualifying 2-element
sublists, each unordered pair once. -/
theorem countConcurrentPairs_eq_spec (conns : List Conn) :
    countConcurrentPairs conns = specPairCount conns := by
  induction conns with
  | nil => rfl
  | cons c rest ih =>
    simp only [countConcurrentPairs, specPairCount, List.sublistsLen_succ_cons,
      List.filter_append, List.length_append] at *
    rw [show (1 + 1 : Nat) = 2 from rfl, ih, filter_pairs_head]
    omega

/-- C5: the concurrent-pair count equals the number of unordered event pairs
within a strict 300-second window from different IPs; same-IP pairs never
count; three near-simultaneous events from three IPs give 3 pairs, a capped
score of 100 and tier HIGH. -/
theorem concurrent_pairs_characterization :
    (∀ conns : List Conn, countConcurrentPairs conns = specPairCount conns) ∧
    (∀ c d : Conn, c.ip = d.ip → concurrentPred c d = false) ∧
    countConcurrentPairs
        [⟨0, "1.1.1.1"⟩, ⟨30, "2.2.2.2"⟩, ⟨60, "3.3.3.3"⟩] = 3 ∧
    calculate_suspicious_score 3 3 3 = 100 ∧
    tierOf (calculate_suspicious_score 3 3 3) = .high := by
  refine ⟨countConcurrentPairs_eq_spec, fun c d h => ?_, by decide, by decide, by decide⟩
  simp [concurrentPred, h]

/-- Witness for C5: a same-IP pair is rejected at a concrete input. -/
theorem concurrent_pairs_characterization_witness :
    concurrentPred ⟨0, "1.1.1.1"⟩ ⟨5, "1.1.1.1"⟩ = false :=
  concurrent_pairs_characterization.2.1 ⟨0, "1.1.1.1"⟩ ⟨5, "1.1.1.1"⟩ rfl

/-! ### Minimum, maximum and sorted endpoints -/

theorem foldl_min_le_init (l : List Int) : ∀ b : Int, l.foldl min b ≤ b := by
  induction l with
  | nil => intro b; exact le_refl b
  | cons y ys ih => intro b; exact le_trans (ih (min b y)) (min_le_left b y)

theorem foldl_min_le_mem (l : List Int) : ∀ b x : Int, x ∈ l → l.foldl min b ≤ x := by
  induction l with
  | nil => intro b x hx; cases hx
  | cons y ys ih =>
    intro b x hx
    cases hx with
    | head => exact le_trans (foldl_min_le_init ys (min b y)) (min_le_right b y)
    | tail _ h => exact ih (min b y) x h

theorem foldl_min_mem (l : List Int) : ∀ b : Int, l.foldl min b = b ∨ l.foldl min b ∈ l := by
  induction l with
  | nil => intro b; exact Or.inl rfl
  | cons y ys ih =>
    intro b
    rcases ih (min b y) with h | h
    · rcases min_choice b y with hm | hm
      · exact Or.inl (by rw [List.foldl_cons, h, hm])
      · refine Or.inr ?_
        rw [List.foldl_cons, h, hm]
        exact List.mem_cons_self y ys
    · exact Or.inr (List.mem_cons_of_mem y h)

theorem listMin_mem (l : List Int) (h : l ≠ []) : listMin l ∈ l := by
  match l with
  | x :: xs =>
    show xs.foldl min x ∈ x :: xs
    rcases foldl_min_mem xs x with h1 | h1
    · rw [h1]; exact List.mem_cons_self x xs
    · exact List.mem_cons_of_mem x h1

theorem listMin_le (l : List Int) (x : Int) (hx : x ∈ l) : listMin l ≤ x := by
  cases l with
  | nil => cases hx
  | cons y ys =>
    show ys.foldl min y ≤ x
    rcases List.mem_cons.mp hx with h | h
    · rw [h]; exact foldl_min_le_init ys y
    · exact foldl_min_le_mem ys y x h

theorem init_le_foldl_max (l : List Int) : ∀ b : Int, b ≤ l.foldl max b := by
  induction l with
  | nil => intro b; exact le_refl b
  | cons y ys ih => intro b; exact le_trans (le_max_left b y) (ih (max b y))

theorem mem_le_foldl_max (l : List Int) : ∀ b x : Int, x ∈ l → x ≤ l.foldl max b := by
  induction l with
  | nil => intro b x hx; cases hx
  | cons y ys ih =>
    intro b x hx
    cases hx with
    | head => exact le_trans (le_max_right b y) (init_le_foldl_max ys (max b y))
    | tail _ h => exact ih (max b y) x h

theorem foldl_max_mem (l : List Int) : ∀ b : Int, l.foldl max b = b ∨ l.foldl max b ∈ l := by
  induction l with
  | nil => intro b; exact Or.inl rfl
  | cons y ys ih =>
    intro b
    rcases ih (max b y) with h | h
    · rcases max_choice b y with hm | hm
      · exact Or.inl (by rw [List.foldl_cons, h, hm])
      · refine Or.inr ?_
        rw [List.foldl_cons, h, hm]
        exact List.mem_cons_self y ys
    · exact Or.inr (List.mem_cons_of_mem y h)

theorem listMax_mem (l : List Int) (h : l ≠ []) : listMax l ∈ l := by
  match l with
  | x :: xs =>
    show xs.foldl max x ∈ x :: xs
    rcases foldl_max_mem xs x with h1 | h1
    · rw [h1]; exact List.mem_cons_self x xs
    · exact List.mem_cons_of_mem x h1

theorem le_listMax (l : List Int) (x : Int) (hx : x ∈ l) : x ≤ listMax l := by
  cases l with
  | nil => cases hx
  | cons y ys =>
    show x ≤ ys.foldl max y
    rcases List.mem_cons.mp hx with h | h
    · rw [h]; exact init_le_foldl_max ys y
    · exact mem_le_foldl_max ys y x h

theorem sortedList_ne_nil {l : List Int} (h : l ≠ []) :
    List.insertionSort (· ≤ ·) l ≠ [] := by
  intro hc
  apply h
  have hlen := (List.perm_insertionSort (· ≤ ·) l).length_eq
  rw [hc] at hlen
  exact List.length_eq_zero.mp hlen.symm

theorem firstOf_insertionSort (l : List Int) (h : l ≠ []) :
    firstOf (List.insertionSort (· ≤ ·) l) = listMin l := by
  have hperm := List.perm_insertionSort (· ≤ ·) l
  have hsorted := List.sorted_insertionSort (· ≤ ·) l
  cases hs : List.insertionSort (· ≤ ·) l with
  | nil => exact absurd hs (sortedList_ne_nil h)
  | cons a t =>
    rw [hs] at hperm hsorted
    show a = listMin l
    have ha : a ∈ l := hperm.mem_iff.mp (List.mem_cons_self a t)
    have h2 : a ≤ listMin l := by
      have hm : listMin l ∈ a :: t := hperm.mem_iff.mpr (listMin_mem l h)
      cases hm with
      | head => exact le_refl _
      | tail _ hmem => exact List.rel_of_sorted_cons hsorted _ hmem
    exact le_antisymm h2 (listMin_le l a ha)

theorem lastOf_mem (l : List Int) (h : l ≠ []) : lastOf l ∈ l := by
  induction l with
  | nil => exact absurd rfl h
  | cons x xs ih =>
    cases xs with
    | nil => exact List.mem_singleton_self x
    | cons y ys =>
      show lastOf (y :: ys) ∈ x :: y :: ys
      exact List.mem_cons_of_mem x (ih (by simp))

theorem le_lastOf_of_sorted (l : List Int) (hs : List.Sorted (· ≤ ·) l) :
    ∀ x ∈ l, x ≤ lastOf l := by
  induction l with
  | nil => intro x hx; cases hx
  | cons a t ih =>
    intro x hx
    cases t with
    | nil =>
      cases hx with
      | head => exact le_refl _
      | tail _ h => cases h
    | cons y ys =>
      have hst := (List.sorted_cons.mp hs).2
      have hrel := (List.sorted_cons.mp hs).1
      show x ≤ lastOf (y :: ys)
      cases hx with
      | head => exact hrel _ (lastOf_mem (y :: ys) (by simp))
      | tail _ h => exact ih hst x h

theorem lastOf_insertionSort (l : List Int) (h : l ≠ []) :
    lastOf (List.insertionSort (· ≤ ·) l) = listMax l := by
  have hperm := List.perm_insertionSort (· ≤ ·) l
  have hsorted := List.sorted_insertionSort (· ≤ ·) l
  have hne := sortedList_ne_nil h
  apply le_antisymm
  · exact le_listMax l _ (hperm.mem_iff.mp (lastOf_mem _ hne))
  · exact le_lastOf_of_sorted _ hsorted _ (hperm.mem_iff.mpr (listMax_mem l h))

/-- The average-interval computation of lines 130-135, with the sorted-list
endpoints rewritten as the minimum and maximum of the timestamps. -/
theorem avgInterval_eq (times : List Int) (h : 1 < times.length) :
    avgInterval times =
      (if 0 < listMax times - listMin times
       then ((listMax times - listMin times : Int) : ℚ) / (times.length : ℚ)
       else 0) := by
  have hne : times ≠ [] := by
    intro hc
    rw [hc] at h
    exact absurd h (by decide)
  have h1 : avgInterval times =
      (if 0 < lastOf (List.insertionSort (· ≤ ·) times) -
            firstOf (List.insertionSort (· ≤ ·) times)
       then ((lastOf (List.insertionSort (· ≤ ·) times) -
            firstOf (List.insertionSort (· ≤ ·) times) : Int) : ℚ) / (times.length : ℚ)
       else 0) := by
    unfold avgInterval
    rw [if_pos h]
  rw [h1, lastOf_insertionSort times hne, firstOf_insertionSort times hne]

/-! ### Average interval and the per-identity filter -/

/-- C2 counterexample: for two events 10 seconds apart the code reports
10 / 2 = 5, while the claimed formula (last_seen - first_seen)/(count - 1)
gives 10 / 1 = 10. -/
theorem avg_interval_counterexample :
    (analyzeUser [⟨0, "1.1.1.1"⟩, ⟨10, "1.1.1.1"⟩]).avg_connection_interval = 5 ∧
    (((analyzeUser [⟨0, "1.1.1.1"⟩, ⟨10, "1.1.1.1"⟩]).last_seen -
        (analyzeUser [⟨0, "1.1.1.1"⟩, ⟨10, "1.1.1.1"⟩]).first_seen : Int) : ℚ) /
      (((analyzeUser [⟨0, "1.1.1.1"⟩, ⟨10, "1.1.1.1"⟩]).total_connections : ℚ) - 1) = 10 ∧
    (5 : ℚ) ≠ 10 := by
  refine ⟨by norm_num [analyzeUser, avgInterval, countConcurrentPairs, listMin, listMax,
    firstOf, lastOf], ?_, by norm_num⟩
  norm_num [analyzeUser, listMin, listMax]

/-- C2 amended: for an identity with more than one event the reported average
interval is the timestamp span divided by the event count (not count minus
one) when the span is positive, and 0 otherwise. -/
theorem avg_interval_formula (conns : List Conn) (h : 1 < conns.length) :
    (analyzeUser conns).avg_connection_interval =
      (if 0 < (analyzeUser conns).last_seen - (analyzeUser conns).first_seen
       then (((analyzeUser conns).last_seen - (analyzeUser conns).first_seen : Int) : ℚ) /
         ((analyzeUser conns).total_connections : ℚ)
       else 0) := by
  have hlen : (conns.map (fun c => c.timestamp)).length = conns.length :=
    List.length_map conns (fun c => c.timestamp)
  have h2 : 1 < (conns.map (fun c => c.timestamp)).length := by rw [hlen]; exact h
  have h3 := avgInterval_eq (conns.map (fun c => c.timestamp)) h2
  rw [hlen] at h3
  exact h3

/-- Witness for C2 (amended) at two events 600 seconds apart. -/
theorem avg_interval_formula_witness :
    1 < ([⟨0, "1.1.1.1"⟩, ⟨600, "2.2.2.2"⟩] : List Conn).length ∧
    (analyzeUser [⟨0, "1.1.1.1"⟩, ⟨600, "2.2.2.2"⟩]).avg_connection_interval =
      (if 0 < (analyzeUser [⟨0, "1.1.1.1"⟩, ⟨600, "2.2.2.2"⟩]).last_seen -
            (analyzeUser [⟨0, "1.1.1.1"⟩, ⟨600, "2.2.2.2"⟩]).first_seen
       then (((analyzeUser [⟨0, "1.1.1.1"⟩, ⟨600, "2.2.2.2"⟩]).last_seen -
            (analyzeUser [⟨0, "1.1.1.1"⟩, ⟨600, "2.2.2.2"⟩]).first_seen : Int) : ℚ) /
         ((analyzeUser [⟨0, "1.1.1.1"⟩, ⟨600, "2.2.2.2"⟩]).total_connections : ℚ)
       else 0) :=
  ⟨by decide, avg_interval_formula [⟨0, "1.1.1.1"⟩, ⟨600, "2.2.2.2"⟩] (by decide)⟩

/-- C1 counterexample: an identity with exactly one event is dropped by the
guard of line 112, so the output of the analysis is empty. -/
theorem single_event_omitted :
    analyzeSharingBehavior [("alice", [⟨0, "1.1.1.1"⟩])] = [] ∧
    "alice" ∉ (analyzeSharingBehavior [("alice", [⟨0, "1.1.1.1"⟩])]).map Prod.fst := by
  exact ⟨rfl, by decide⟩

/-- C1 amended: an identity appears in the correlation output exactly when it
has at least two events, and then with the analysis of its connections;
identities with zero or one event are omitted. -/
theorem analyze_min_two_events (inp : List (String × List Conn)) (u : String) :
    (∀ cs : List Conn, (u, cs) ∈ inp → 2 ≤ cs.length →
      (u, analyzeUser cs) ∈ analyzeSharingBehavior inp) ∧
    (∀ r : CorrelationResult, (u, r) ∈ analyzeSharingBehavior inp →
      ∃ cs : List Conn, (u, cs) ∈ inp ∧ 2 ≤ cs.length ∧ r = analyzeUser cs) := by
  constructor
  · intro cs hmem hlen
    unfold analyzeSharingBehavior
    apply List.mem_filterMap.mpr
    refine ⟨(u, cs), hmem, ?_⟩
    show (if cs.length < 2 then none else some (u, analyzeUser cs)) = some (u, analyzeUser cs)
    rw [if_neg (by omega)]
  · intro r hmem
    unfold analyzeSharingBehavior at hmem
    rcases List.mem_filterMap.mp hmem with ⟨uc, hin, heq⟩
    by_cases hlen : uc.2.length < 2
    · rw [if_pos hlen] at heq
      exact absurd heq (by simp)
    · rw [if_neg hlen] at heq
      have heq2 : (uc.1, analyzeUser uc.2) = (u, r) := Option.some.inj heq
      have hu : uc.1 = u := congrArg Prod.fst heq2
      have hr : analyzeUser uc.2 = r := congrArg Prod.snd heq2
      refine ⟨uc.2, ?_, by omega, hr.symm⟩
      rw [← hu]
      exact hin

/-- Witness for C1 (amended): a two-event identity appears in the output. -/
theorem analyze_min_two_events_witness :
    ("alice", analyzeUser [⟨0, "1.1.1.1"⟩, ⟨600, "2.2.2.2"⟩]) ∈
      analyzeSharingBehavior [("alice", [⟨0, "1.1.1.1"⟩, ⟨600, "2.2.2.2"⟩])] :=
  (analyze_min_two_events [("alice", [⟨0, "1.1.1.1"⟩, ⟨600, "2.2.2.2"⟩])] "alice").1
    [⟨0, "1.1.1.1"⟩, ⟨600, "2.2.2.2"⟩] (List.mem_singleton_self _) (by decide)

/-! ### Report ordering -/

theorem orderedInsert_of_forall_ge (x : String × CorrelationResult)
    (l : List (String × CorrelationResult)) (h : ∀ y ∈ l, scoreGE x y) :
    List.orderedInsert scoreGE x l = x :: l := by
  cases l with
  | nil => rfl
  | cons y ys => exact List.orderedInsert_of_le scoreGE ys (h y (List.mem_cons_self y ys))

theorem sortByScore_all_tied (a : List (String × CorrelationResult)) (s : Nat)
    (h : ∀ x ∈ a, x.2.suspicious_score = s) : sortByScore a = a := by
  induction a with
  | nil => rfl
  | cons x xs ih =>
    have hx : sortByScore (x :: xs) = List.orderedInsert scoreGE x (sortByScore xs) := rfl
    rw [hx, ih (fun y hy => h y (List.mem_cons_of_mem x hy))]
    apply orderedInsert_of_forall_ge
    intro y hy
    unfold scoreGE
    rw [h x (List.mem_cons_self x xs), h y (List.mem_cons_of_mem x hy)]

/-- C3 amended: the report ordering is a permutation of the analysis entries
sorted by suspicious score descending only; the sort is stable, so entries
with equal scores keep their input (dictionary insertion) order — there is no
tie-break on total_connections or on the identity name. -/
theorem report_order :
    (∀ a : List (String × CorrelationResult), List.Perm (sortByScore a) a) ∧
    (∀ a : List (String × CorrelationResult), List.Sorted scoreGE (sortByScore a)) ∧
    (∀ (a : List (String × CorrelationResult)) (s : Nat),
      (∀ x ∈ a, x.2.suspicious_score = s) → sortByScore a = a) :=
  ⟨fun a => List.perm_insertionSort scoreGE a,
   fun a => List.sorted_insertionSort scoreGE a,
   sortByScore_all_tied⟩

/-- Witness for C3 (amended): two identities with identical records stay in
input order. -/
theorem report_order_witness :
    sortByScore [("bob", sampleResult), ("alice", sampleResult)] =
      [("bob", sampleResult), ("alice", sampleResult)] :=
  report_order.2.2 [("bob", sampleResult), ("alice", sampleResult)] 20 (by decide)

/-- C3 counterexample: with identical correlation records inserted in the
order bob then alice, the report lists bob first, not alice. -/
theorem report_order_counterexample :
    (sortByScore [("bob", sampleResult), ("alice", sampleResult)]).map Prod.fst =
      ["bob", "alice"] ∧
    (sortByScore [("bob", sampleResult), ("alice", sampleResult)]).map Prod.fst ≠
      ["alice", "bob"] := by
  constructor
  · decide
  · decide

/-! ### Grouping of events and unresolved credentials -/

theorem lookupGroup_insertConn_self (m : List (String × List Conn)) (n : String) (c : Conn) :
    lookupGroup (insertConn m n c) n = lookupGroup m n ++ [c] := by
  induction m with
  | nil => simp [insertConn, lookupGroup]
  | cons kv rest ih =>
    by_cases hk : kv.1 = n
    · show lookupGroup (if kv.1 = n then (kv.1, kv.2 ++ [c]) :: rest
        else (kv.1, kv.2) :: insertConn rest n c) n = _
      rw [if_pos hk]
      show (if kv.1 = n then kv.2 ++ [c] else lookupGroup rest n) = _
      rw [if_pos hk]
      show _ = (if kv.1 = n then kv.2 else lookupGroup rest n) ++ [c]
      rw [if_pos hk]
    · show lookupGroup (if kv.1 = n then (kv.1, kv.2 ++ [c]) :: rest
        else (kv.1, kv.2) :: insertConn rest n c) n = _
      rw [if_neg hk]
      show (if kv.1 = n then kv.2 else lookupGroup (insertConn rest n c) n) = _
      rw [if_neg hk, ih]
      show _ = (if kv.1 = n then kv.2 else lookupGroup rest n) ++ [c]
      rw [if_neg hk]

theorem lookupGroup_insertConn_other (m : List (String × List Conn)) (n k : String)
    (c : Conn) (h : k ≠ n) : lookupGroup (insertConn m n c) k = lookupGroup m k := by
  induction m with
  | nil =>
    show (if n = k then [c] else lookupGroup [] k) = lookupGroup [] k
    rw [if_neg (fun hc => h hc.symm)]
  | cons kv rest ih =>
    by_cases hk : kv.1 = n
    · show lookupGroup (if kv.1 = n then (kv.1, kv.2 ++ [c]) :: rest
        else (kv.1, kv.2) :: insertConn rest n c) k = _
      rw [if_pos hk]
      show (if kv.1 = k then kv.2 ++ [c] else lookupGroup rest k) = _
      rw [if_neg (by rw [hk]; exact fun hc => h hc.symm)]
      show _ = (if kv.1 = k then kv.2 else lookupGroup rest k)
      rw [if_neg (by rw [hk]; exact fun hc => h hc.symm)]
    · show lookupGroup (if kv.1 = n then (kv.1, kv.2 ++ [c]) :: rest
        else (kv.1, kv.2) :: insertConn rest n c) k = _
      rw [if_neg hk]
      show (if kv.1 = k then kv.2 else lookupGroup (insertConn rest n c) k) = _
      show _ = (if kv.1 = k then kv.2 else lookupGroup rest k)
      by_cases hkk : kv.1 = k
      · rw [if_pos hkk, if_pos hkk]
      · rw [if_neg hkk, if_neg hkk, ih]

theorem mem_lookupGroup_insertConn (m : List (String × List Conn)) (n k : String)
    (c x : Conn) (h : x ∈ lookupGroup m k) : x ∈ lookupGroup (insertConn m n c) k := by
  by_cases hk : k = n
  · rw [hk] at h ⊢
    rw [lookupGroup_insertConn_self]
    exact List.mem_append_left _ h
  · rw [lookupGroup_insertConn_other m n k c hk]
    exact h

theorem mem_lookupGroup_foldl (s2u : List (String × String)) (evs : List RawEvent) :
    ∀ (m : List (String × List Conn)) (k : String) (x : Conn),
      x ∈ lookupGroup m k → x ∈ lookupGroup (evs.foldl (parseStep s2u) m) k := by
  induction evs with
  | nil => intro m k x h; exact h
  | cons e rest ih =>
    intro m k x h
    exact ih (parseStep s2u m e) k x (mem_lookupGroup_insertConn m _ k _ x h)

theorem mem_parseLogs_aux (s2u : List (String × String)) (evs : List RawEvent) :
    ∀ (m : List (String × List Conn)) (e : RawEvent), e ∈ evs →
      connOf e ∈ lookupGroup (evs.foldl (parseStep s2u) m) (resolveUsername s2u e.secret) := by
  induction evs with
  | nil => intro m e he; cases he
  | cons a rest ih =>
    intro m e he
    rcases List.mem_cons.mp he with h | h
    · subst h
      apply mem_lookupGroup_foldl s2u rest (parseStep s2u m e)
      rw [parseStep, lookupGroup_insertConn_self]
      exact List.mem_append_right _ (List.mem_singleton_self _)
    · exact ih (parseStep s2u m a) e h

/-- C9: an event whose credential has no entry in the secret-to-user mapping
is grouped under the deterministic placeholder identity built from the string
unknown_ and the first 8 characters of the credential, rather than dropped. -/
theorem unknown_secret_grouped (s2u : List (String × String)) (evs : List RawEvent)
    (e : RawEvent) (he : e ∈ evs) (hu : s2u.lookup e.secret = none) :
    resolveUsername s2u e.secret = "unknown_" ++ e.secret.take 8 ∧
    connOf e ∈ lookupGroup (parseLogs s2u evs) ("unknown_" ++ e.secret.take 8) := by
  have hname : resolveUsername s2u e.secret = "unknown_" ++ e.secret.take 8 := by
    unfold resolveUsername
    rw [hu]
  refine ⟨hname, ?_⟩
  have h := mem_parseLogs_aux s2u evs [] e he
  rw [hname] at h
  exact h

/-- Witness for C9 with an empty mapping and one concrete event. -/
theorem unknown_secret_grouped_witness :
    resolveUsername [] "deadbeefcafe0123" = "unknown_" ++ "deadbeefcafe0123".take 8 ∧
    connOf ⟨0, "9.9.9.9", "deadbeefcafe0123"⟩ ∈
      lookupGroup (parseLogs [] [⟨0, "9.9.9.9", "deadbeefcafe0123"⟩])
        ("unknown_" ++ "deadbeefcafe0123".take 8) :=
  unknown_secret_grouped [] [⟨0, "9.9.9.9", "deadbeefcafe0123"⟩]
    ⟨0, "9.9.9.9", "deadbeefcafe0123"⟩ (List.mem_singleton_self _) rfl

/-! ### Identical timestamps -/

/-- C10: two events of one identity with exactly equal timestamps and
different source IPs form a concurrent pair (zero difference is inside the
strict 300-second window), and each concurrent pair adds 50 to the pre-cap
score. -/
theorem identical_timestamp_pair (c d : Conn) (ht : c.timestamp = d.timestamp)
    (hip : c.ip ≠ d.ip) :
    concurrentPred c d = true ∧
    (∀ u p t : Nat, suspiciousScoreBase u (p + 1) t = suspiciousScoreBase u p t + 50) := by
  constructor
  · simp [concurrentPred, ht, bne_iff_ne, hip]
  · intro u p t
    rw [suspiciousScoreBase_eq, suspiciousScoreBase_eq]
    split_ifs <;> omega

/-- Witness for C10 at two concrete events with equal timestamps. -/
theorem identical_timestamp_pair_witness :
    concurrentPred ⟨100, "1.1.1.1"⟩ ⟨100, "2.2.2.2"⟩ = true ∧
    suspiciousScoreBase 2 1 5 = suspiciousScoreBase 2 0 5 + 50 :=
  ⟨(identical_timestamp_pair ⟨100, "1.1.1.1"⟩ ⟨100, "2.2.2.2"⟩ rfl (by decide)).1,
   (identical_timestamp_pair ⟨100, "1.1.1.1"⟩ ⟨100, "2.2.2.2"⟩ rfl (by decide)).2 2 0 5⟩

end MTProxy
